import Mathlib

/-!
Shallow embedding of the protocol subsystem of `iris_assist`:
`src/backend/src/services/ProtocolService.ts` operating over the tables
`protocols` and `protocol_runs` of
`src/kelly-assistant/backend/database/schema.sql`.

The database is modelled as lists of rows; each service method becomes a
pure function from the database state (plus the values the runtime
supplies: fresh UUIDs, the clock `NOW()`, and whether an awaited query
succeeds) to its result and the new state.  SQL `LOWER` is `String.toLower`,
`NOW()` is an explicit `now : Nat` argument, and JS numbers that the code
only adds are `Int`.
-/

namespace IrisAssist

/-- The `timerType` alternative of interface `ProtocolStep`. -/
inductive TimerType where
  | countdown
  | stopwatch
  deriving Repr, DecidableEq

/-- One element of the `steps` JSONB array (interface `ProtocolStep`):
a label, a duration in minutes, and two optional presentation fields the
service never reads.  The code never validates the duration, so it is an
arbitrary integer here. -/
structure ProtocolStep where
  step : String
  duration : Int
  instructions : Option String := none
  timerType : Option TimerType := none
  deriving Repr, DecidableEq

/-- A row of the `protocols` table. -/
structure ProtocolRow where
  id : String
  userId : String
  name : String
  description : Option String
  steps : List ProtocolStep
  totalDuration : Int
  tags : List String
  isActive : Bool
  lastRun : Option Nat
  runCount : Int
  createdAt : Nat
  updatedAt : Nat
  deriving Repr, DecidableEq

/-- The `status` column of `protocol_runs`. -/
inductive RunStatus where
  | inProgress
  | completed
  | cancelled
  deriving Repr, DecidableEq

/-- A row of the `protocol_runs` table. -/
structure RunRow where
  id : String
  protocolId : String
  userId : String
  startedAt : Nat
  completedAt : Option Nat
  status : RunStatus
  currentStep : Int
  notes : Option String
  deriving Repr, DecidableEq

/-- The database state: the two tables the protocol subsystem touches. -/
structure Db where
  protocols : List ProtocolRow
  runs : List RunRow
  deriving Repr, DecidableEq

/-- The argument of `createProtocol` (interface `Protocol`, the fields the
insert reads). -/
structure ProtocolInput where
  userId : String
  name : String
  description : Option String
  steps : List ProtocolStep
  tags : List String
  isActive : Option Bool
  deriving Repr, DecidableEq

/-- `protocol.steps.reduce((sum, step) => sum + step.duration, 0)`. -/
def totalDurationOf (steps : List ProtocolStep) : Int :=
  steps.foldl (fun sum s => sum + s.duration) 0

/-- The conflict target of the upsert: the schema constraint
`UNIQUE(user_id, name)` compares both columns exactly (case-sensitively). -/
def exactNameMatch (u n : String) (p : ProtocolRow) : Bool :=
  p.userId == u && p.name == n

/-- `createProtocol`: `INSERT INTO protocols ... ON CONFLICT (user_id, name)
DO UPDATE SET description, steps, total_duration, tags, updated_at
RETURNING id`.  No validation of the input is performed.  On conflict the
existing row keeps `id`, `is_active`, `last_run`, `run_count`, `created_at`;
otherwise a fresh row is inserted with `is_active` from
`protocol.isActive !== false` and the column defaults. -/
def createProtocol (db : Db) (inp : ProtocolInput) (newId : String) (now : Nat) :
    String × Db :=
  let total := totalDurationOf inp.steps
  if db.protocols.any (exactNameMatch inp.userId inp.name) then
    let protocols := db.protocols.map fun p =>
      if exactNameMatch inp.userId inp.name p then
        { p with description := inp.description, steps := inp.steps,
                 totalDuration := total, tags := inp.tags, updatedAt := now }
      else p
    let rid := match db.protocols.find? (exactNameMatch inp.userId inp.name) with
      | some p => p.id
      | none => newId
    (rid, { db with protocols := protocols })
  else
    let row : ProtocolRow :=
      { id := newId, userId := inp.userId, name := inp.name,
        description := inp.description, steps := inp.steps,
        totalDuration := total, tags := inp.tags,
        isActive := inp.isActive != some false,
        lastRun := none, runCount := 0, createdAt := now, updatedAt := now }
    (newId, { db with protocols := db.protocols ++ [row] })

/-- The `WHERE` clause of `getProtocol`:
`user_id = $1 AND LOWER(name) = LOWER($2) AND is_active = true`. -/
def lowerNameMatch (u n : String) (p : ProtocolRow) : Bool :=
  p.userId == u && p.name.toLower == n.toLower && p.isActive

/-- `getProtocol`: case-insensitive lookup among active rows. -/
def getProtocol (db : Db) (u n : String) : Option ProtocolRow :=
  db.protocols.find? (lowerNameMatch u n)

/-- `listProtocols`: active rows of the user,
`ORDER BY run_count DESC, updated_at DESC`. -/
def listProtocols (db : Db) (u : String) : List ProtocolRow :=
  (db.protocols.filter fun p => p.userId == u && p.isActive).mergeSort
    fun a b =>
      decide (b.runCount < a.runCount) ||
        (b.runCount == a.runCount && decide (b.updatedAt ≤ a.updatedAt))

/-- `startProtocolRun`: inserts a `protocol_runs` row with
`status = 'in_progress', current_step = 0` — without checking for an
existing active run — and then, inside the same `try`, awaits the
bookkeeping `UPDATE protocols SET last_run = NOW(),
run_count = run_count + 1`.  The insert fails only on the foreign key
`protocol_id REFERENCES protocols(id)`; `bookkeepingOk` says whether the
awaited bookkeeping query succeeds — when it throws, the error propagates
out of the method although the run row is already committed (no
transaction wraps the two statements). -/
def startProtocolRun (db : Db) (protocolId userId runId : String) (now : Nat)
    (bookkeepingOk : Bool) : Except String String × Db :=
  if db.protocols.any (fun p => p.id == protocolId) then
    let run : RunRow :=
      { id := runId, protocolId := protocolId, userId := userId,
        startedAt := now, completedAt := none,
        status := .inProgress, currentStep := 0, notes := none }
    let db1 : Db := { db with runs := db.runs ++ [run] }
    if bookkeepingOk then
      let protocols := db1.protocols.map fun p =>
        if p.id == protocolId then
          { p with lastRun := some now, runCount := p.runCount + 1 }
        else p
      (.ok runId, { db1 with protocols := protocols })
    else
      (.error "bookkeeping update failed", db1)
  else
    (.error "insert violates foreign key protocol_runs.protocol_id", db)

/-- `updateProtocolRunStep`: `UPDATE protocol_runs SET current_step = $2
WHERE id = $1 RETURNING id` — no status check, no bounds check, no
monotonicity check; returns `rowCount > 0`. -/
def updateProtocolRunStep (db : Db) (runId : String) (stepNumber : Int) :
    Bool × Db :=
  let runs := db.runs.map fun r =>
    if r.id == runId then { r with currentStep := stepNumber } else r
  (db.runs.any (fun r => r.id == runId), { db with runs := runs })

/-- `completeProtocolRun`: `UPDATE protocol_runs SET status = 'completed',
completed_at = NOW(), notes = $2 WHERE id = $1 RETURNING id` — applies to
the row whatever its current status; returns `rowCount > 0`. -/
def completeProtocolRun (db : Db) (runId : String) (notes : Option String)
    (now : Nat) : Bool × Db :=
  let runs := db.runs.map fun r =>
    if r.id == runId then
      { r with status := .completed, completedAt := some now, notes := notes }
    else r
  (db.runs.any (fun r => r.id == runId), { db with runs := runs })

/-- `cancelProtocolRun`: `UPDATE protocol_runs SET status = 'cancelled',
completed_at = NOW() WHERE id = $1 RETURNING id` — applies to the row
whatever its current status; returns `rowCount > 0`. -/
def cancelProtocolRun (db : Db) (runId : String) (now : Nat) : Bool × Db :=
  let runs := db.runs.map fun r =>
    if r.id == runId then
      { r with status := .cancelled, completedAt := some now }
    else r
  (db.runs.any (fun r => r.id == runId), { db with runs := runs })

/-- The row `getActiveRun` builds from the joined result: run columns plus
`p.name AS protocol_name` and `p.steps` from the current `protocols` row. -/
structure ActiveRunView where
  id : String
  protocolId : String
  userId : String
  startedAt : Nat
  completedAt : Option Nat
  status : RunStatus
  currentStep : Int
  notes : Option String
  protocolName : String
  steps : List ProtocolStep
  deriving Repr, DecidableEq

/-- The rows of `getActiveRun`'s query before `ORDER BY`/`LIMIT`:
`protocol_runs` of the user with `status = 'in_progress'`, inner-joined
with `protocols` on `pr.protocol_id = p.id` (`id` is the primary key, so
the join partner is looked up by key). -/
def activeCandidates (db : Db) (u : String) : List (RunRow × ProtocolRow) :=
  (db.runs.filter fun r =>
      r.userId == u && r.status == RunStatus.inProgress).filterMap
    fun r => (db.protocols.find? fun p => p.id == r.protocolId).map
      fun p => (r, p)

/-- Comparator realising `ORDER BY pr.started_at DESC LIMIT 1`: keep the
candidate started later. -/
def laterRun (a b : RunRow × ProtocolRow) : RunRow × ProtocolRow :=
  if a.1.startedAt < b.1.startedAt then b else a

/-- The single row `ORDER BY started_at DESC LIMIT 1` leaves, if any. -/
def pickLatest : List (RunRow × ProtocolRow) → Option (RunRow × ProtocolRow)
  | [] => none
  | x :: xs => some (xs.foldl laterRun x)

/-- Field mapping from the joined row to the returned object. -/
def viewOf (c : RunRow × ProtocolRow) : ActiveRunView :=
  { id := c.1.id, protocolId := c.1.protocolId, userId := c.1.userId,
    startedAt := c.1.startedAt, completedAt := c.1.completedAt,
    status := c.1.status, currentStep := c.1.currentStep, notes := c.1.notes,
    protocolName := c.2.name, steps := c.2.steps }

/-- `getActiveRun`: the most recently started in-progress run of the user,
with name and steps read from the current `protocols` row. -/
def getActiveRun (db : Db) (u : String) : Option ActiveRunView :=
  (pickLatest (activeCandidates db u)).map viewOf

/-- Number of `in_progress` runs a user has. -/
def inProgressCount (db : Db) (u : String) : Nat :=
  (db.runs.filter fun r =>
      r.userId == u && r.status == RunStatus.inProgress).length

/-! ### Concrete fixtures

The "red light" scenario of the specification, used as concrete test data
for counterexamples and witnesses. -/

/-- Steps of the spec's "red light" protocol. -/
def redSteps : List ProtocolStep :=
  [⟨"neck", 3, none, none⟩, ⟨"left cheek", 3, none, none⟩, ⟨"right cheek", 3, none, none⟩, ⟨"chest", 5, none, none⟩]

/-- A stored "red light" definition for user `kelly`. -/
def pRed : ProtocolRow :=
  { id := "p1", userId := "kelly", name := "red light", description := none,
    steps := redSteps, totalDuration := 14, tags := [], isActive := true,
    lastRun := none, runCount := 0, createdAt := 0, updatedAt := 0 }

/-- An in-progress run of `pRed`, started at time 1. -/
def run1 : RunRow :=
  { id := "r1", protocolId := "p1", userId := "kelly", startedAt := 1,
    completedAt := none, status := .inProgress, currentStep := 0,
    notes := none }

/-- Database holding only the "red light" definition. -/
def dbRed : Db := { protocols := [pRed], runs := [] }

/-- Database with the "red light" definition and one active run. -/
def db0 : Db := { protocols := [pRed], runs := [run1] }

/-- A run already completed at time 10 with notes recorded. -/
def runDone : RunRow :=
  { id := "r9", protocolId := "p1", userId := "kelly", startedAt := 1,
    completedAt := some 10, status := .completed, currentStep := 3,
    notes := some "first" }

/-- Database with only a terminal run. -/
def dbDone : Db := { protocols := [pRed], runs := [runDone] }

/-- Empty database. -/
def dbEmpty : Db := { protocols := [], runs := [] }

/-- A second, later in-progress run of `kelly` on the same protocol. -/
def run2 : RunRow :=
  { id := "r2", protocolId := "p1", userId := "kelly", startedAt := 5,
    completedAt := none, status := .inProgress, currentStep := 0,
    notes := none }

/-- Database where `kelly` has two simultaneous in-progress runs. -/
def dbTwo : Db := { protocols := [pRed], runs := [run1, run2] }

/-- The "red light" definition after a soft delete (`is_active = false`). -/
def pRedInactive : ProtocolRow := { pRed with isActive := false }

/-- Database holding only the soft-deleted "red light" definition. -/
def dbInactive : Db := { protocols := [pRedInactive], runs := [] }

/-! ### Claim C3 — `updateProtocolRunStep` -/

/-- C3 counterexample: the claim says the update returns `false` and leaves
the run unchanged unless the run is in progress and the new index equals
`currentStepIndex + 1`.  On a run at step 0, requesting step 5 nevertheless
returns `true` and stores 5. -/
theorem C3_counterexample :
    (updateProtocolRunStep db0 "r1" 5).1 = true ∧
    ((updateProtocolRunStep db0 "r1" 5).2.runs.map RunRow.currentStep) = [5] := by
  decide

/-- C3 amended: `updateProtocolRunStep` performs no status, bounds or
monotonicity check.  It returns `true` exactly when a run with the given id
exists, sets that run's `current_step` to the requested value whatever it
is, and leaves runs with other ids untouched. -/
theorem C3_updateStep_unchecked (db : Db) (runId : String) (n : Int) :
    ((updateProtocolRunStep db runId n).1 = true ↔ ∃ r ∈ db.runs, r.id = runId) ∧
    (∀ r ∈ (updateProtocolRunStep db runId n).2.runs,
        r.id = runId → r.currentStep = n) ∧
    (∀ r ∈ db.runs, r.id ≠ runId →
        r ∈ (updateProtocolRunStep db runId n).2.runs) := by
  refine ⟨?_, ?_, ?_⟩
  · simp [updateProtocolRunStep, List.any_eq_true]
  · intro r hr hid
    simp only [updateProtocolRunStep, List.mem_map] at hr
    obtain ⟨r0, _, rfl⟩ := hr
    by_cases h : r0.id = runId
    · simp [h]
    · simp [h] at hid
  · intro r hr h
    simp only [updateProtocolRunStep, List.mem_map]
    exact ⟨r, hr, by simp [h]⟩

/-- C3 witness: applying the theorem at the concrete run `r1`. -/
theorem C3_witness : (updateProtocolRunStep db0 "r1" 5).1 = true :=
  (C3_updateStep_unchecked db0 "r1" 5).1.mpr ⟨run1, by decide, by decide⟩

/-! ### Claim C4 — terminal runs are not immutable -/

/-- C4 counterexample: the claim says calling `completeProtocolRun` again on
an already-completed run returns `false` and keeps the first terminal
values.  On a run completed at time 10 with notes "first", a second
completion at time 20 returns `true`, re-stamps `completed_at` to 20 and
overwrites the notes. -/
theorem C4_counterexample :
    (completeProtocolRun dbDone "r9" (some "second") 20).1 = true ∧
    ((completeProtocolRun dbDone "r9" (some "second") 20).2.runs.map
        RunRow.completedAt) = [some 20] ∧
    ((completeProtocolRun dbDone "r9" (some "second") 20).2.runs.map
        RunRow.notes) = [some "second"] := by
  decide

/-- C4 amended: `completeProtocolRun` and `cancelProtocolRun` are
unconditional updates.  Each returns `true` exactly when a run with the id
exists, and it sets status and `completed_at` (and, for complete, the
notes) on that run regardless of whether it was already terminal. -/
theorem C4_terminal_not_immutable (db : Db) (runId : String)
    (notes : Option String) (now : Nat) :
    ((completeProtocolRun db runId notes now).1 = true ↔
        ∃ r ∈ db.runs, r.id = runId) ∧
    (∀ r ∈ (completeProtocolRun db runId notes now).2.runs, r.id = runId →
        r.status = RunStatus.completed ∧ r.completedAt = some now ∧
          r.notes = notes) ∧
    ((cancelProtocolRun db runId now).1 = true ↔
        ∃ r ∈ db.runs, r.id = runId) ∧
    (∀ r ∈ (cancelProtocolRun db runId now).2.runs, r.id = runId →
        r.status = RunStatus.cancelled ∧ r.completedAt = some now) := by
  refine ⟨?_, ?_, ?_, ?_⟩
  · simp [completeProtocolRun, List.any_eq_true]
  · intro r hr hid
    simp only [completeProtocolRun, List.mem_map] at hr
    obtain ⟨r0, _, rfl⟩ := hr
    by_cases h : r0.id = runId
    · simp [h]
    · simp [h] at hid
  · simp [cancelProtocolRun, List.any_eq_true]
  · intro r hr hid
    simp only [cancelProtocolRun, List.mem_map] at hr
    obtain ⟨r0, _, rfl⟩ := hr
    by_cases h : r0.id = runId
    · simp [h]
    · simp [h] at hid

/-- C4 witness: applying the theorem at the already-terminal run `r9`. -/
theorem C4_witness :
    (completeProtocolRun dbDone "r9" (some "second") 20).1 = true :=
  (C4_terminal_not_immutable dbDone "r9" (some "second") 20).1.mpr
    ⟨runDone, by decide, by decide⟩

/-! ### Claim C5 — no validation in `createProtocol` -/

/-- C5 counterexample: the claim says an empty step list fails with
`ValidationError` and persists nothing.  Upserting a protocol with no
steps on an empty database succeeds and persists a row with empty steps
and `total_duration = 0`. -/
theorem C5_counterexample :
    (createProtocol dbEmpty
        ⟨"kelly", "void", none, [], [], none⟩ "pE" 0).1 = "pE" ∧
    ((createProtocol dbEmpty
        ⟨"kelly", "void", none, [], [], none⟩ "pE" 0).2.protocols.map
      ProtocolRow.steps) = [[]] := by
  decide

/-- C5 amended: `createProtocol` performs no validation at all.  Every
upsert succeeds and persists a row for the given owner and name whose
steps are exactly the given list — empty lists and non-positive durations
included — with `total_duration` their (possibly zero or negative) sum. -/
theorem C5_no_validation (db : Db) (inp : ProtocolInput) (newId : String)
    (now : Nat) :
    ∃ p ∈ (createProtocol db inp newId now).2.protocols,
      p.userId = inp.userId ∧ p.name = inp.name ∧ p.steps = inp.steps ∧
        p.totalDuration = totalDurationOf inp.steps := by
  cases hc : db.protocols.any (exactNameMatch inp.userId inp.name) with
  | true =>
    rw [List.any_eq_true] at hc
    obtain ⟨q, hq, hm⟩ := hc
    have hm2 : q.userId = inp.userId ∧ q.name = inp.name := by
      simpa [exactNameMatch] using hm
    have hmem : ({ q with
                   description := inp.description,
                   steps := inp.steps,
                   totalDuration := totalDurationOf inp.steps,
                   tags := inp.tags,
                   updatedAt := now } : ProtocolRow) ∈
          (createProtocol db inp newId now).2.protocols := by
      simp only [createProtocol]
      rw [if_pos (by rw [List.any_eq_true]; exact ⟨q, hq, hm⟩)]
      simp only [List.mem_map]
      exact ⟨q, hq, by simp [hm]⟩
    exact ⟨_, hmem, by simp [hm2.1], by simp [hm2.2], by simp, by simp⟩
  | false =>
    have hmem : ({ id := newId,
                   userId := inp.userId,
                   name := inp.name,
                   description := inp.description,
                   steps := inp.steps,
                   totalDuration := totalDurationOf inp.steps,
                   tags := inp.tags,
                   isActive := inp.isActive != some false,
                   lastRun := none,
                   runCount := 0,
                   createdAt := now,
                   updatedAt := now } : ProtocolRow) ∈
          (createProtocol db inp newId now).2.protocols := by
      simp only [createProtocol]
      rw [if_neg (by simp [hc])]
      simp
    exact ⟨_, hmem, by simp, by simp, by simp, by simp⟩

/-! ### Claim C6 — name uniqueness is case-sensitive -/

/-- C6 counterexample: the claim says upserting a name that matches an
existing active definition up to letter case revises it rather than
creating a second definition.  With "red light" stored for `kelly`,
upserting "Red Light" creates a second row: the owner now has two
definitions whose names differ only in case. -/
theorem C6_counterexample :
    ((createProtocol dbRed
        ⟨"kelly", "Red Light", none, [⟨"neck", 3, none, none⟩], [], none⟩
        "p2" 5).2.protocols.map ProtocolRow.name) = ["red light", "Red Light"] := by
  decide

/-- C6 amended: uniqueness of protocol names per owner is case-sensitive,
not case-insensitive.  The upsert conflicts only on the exact
`(user_id, name)` pair: if a row with exactly that owner and name exists,
the row count is unchanged (the existing row is revised); otherwise — in
particular when only a case-variant of the name exists — a new row is
inserted. -/
theorem C6_case_sensitive_upsert (db : Db) (inp : ProtocolInput)
    (newId : String) (now : Nat) :
    (createProtocol db inp newId now).2.protocols.length =
      (if db.protocols.any (exactNameMatch inp.userId inp.name) then
        db.protocols.length
      else db.protocols.length + 1) := by
  cases hc : db.protocols.any (exactNameMatch inp.userId inp.name) with
  | true => simp [createProtocol, hc]
  | false => simp [createProtocol, hc]

/-! ### Claim C1 — no single-active-run enforcement -/

/-- C1 counterexample: the claim says that when an owner already has an
active run, starting another fails with `ConflictError` and leaves no
second `in_progress` run.  In `db0`, `kelly` already has the active run
`r1`; `startProtocolRun` nevertheless succeeds and the owner ends up with
two `in_progress` runs. -/
theorem C1_counterexample :
    (startProtocolRun db0 "p1" "kelly" "r2" 2 true).1.toOption = some "r2" ∧
    inProgressCount (startProtocolRun db0 "p1" "kelly" "r2" 2 true).2 "kelly"
      = 2 := by
  decide

/-- C1 amended: `startProtocolRun` never checks for an existing active run
and no schema constraint restricts `in_progress` rows per owner.  Whenever
the referenced definition exists (the only way the insert can fail is the
foreign key) and the bookkeeping update succeeds, the call succeeds and
the owner's number of `in_progress` runs grows by one — however many
active runs the owner already has.  Only the Alexa intent handler performs
a non-atomic `getActiveRun` pre-check before calling it; the REST route
`/api/protocol/start` performs none. -/
theorem C1_no_conflict_check (db : Db) (protocolId userId runId : String)
    (now : Nat) (hp : ∃ p ∈ db.protocols, p.id = protocolId) :
    (startProtocolRun db protocolId userId runId now true).1 =
        Except.ok runId ∧
    inProgressCount (startProtocolRun db protocolId userId runId now true).2
        userId = inProgressCount db userId + 1 := by
  have hb : db.protocols.any (fun p => p.id == protocolId) = true := by
    rw [List.any_eq_true]
    obtain ⟨p, hpmem, hpid⟩ := hp
    exact ⟨p, hpmem, by simp [hpid]⟩
  constructor
  · simp [startProtocolRun, hb]
  · simp [startProtocolRun, hb, inProgressCount, List.filter_append]

/-- C1 witness: applying the theorem in the state that already holds an
active run for the owner. -/
theorem C1_witness :
    (∃ p ∈ db0.protocols, p.id = "p1") ∧
    ((startProtocolRun db0 "p1" "kelly" "r2" 2 true).1 = Except.ok "r2" ∧
      inProgressCount (startProtocolRun db0 "p1" "kelly" "r2" 2 true).2 "kelly"
        = inProgressCount db0 "kelly" + 1) :=
  ⟨⟨pRed, by decide, by decide⟩,
    C1_no_conflict_check db0 "p1" "kelly" "r2" 2 ⟨pRed, by decide, by decide⟩⟩

/-! ### Claim C7 — run-count bookkeeping is not best-effort -/

/-- C7 counterexample: the claim says a failure of the `run_count`/
`last_run` update never causes the run-creation call itself to fail once
the run row is persisted.  When the bookkeeping update throws, the call
reports an error even though the run row is already committed. -/
theorem C7_counterexample :
    (startProtocolRun dbRed "p1" "kelly" "r1" 3 false).1.toOption = none ∧
    ((startProtocolRun dbRed "p1" "kelly" "r1" 3 false).2.runs.map
        RunRow.id) = ["r1"] := by
  decide

/-- C7 amended: on success `startProtocolRun` does increment the referenced
definition's `run_count` and set `last_run`; but the bookkeeping is not
best-effort — it is awaited inside the same `try` as the insert, so when
it fails the whole call reports an error although the run row (already
committed, as the two statements share no transaction) remains persisted
and in progress. -/
theorem C7_bookkeeping_not_best_effort (db : Db)
    (protocolId userId runId : String) (now : Nat)
    (hp : ∃ p ∈ db.protocols, p.id = protocolId) :
    (∀ p ∈ (startProtocolRun db protocolId userId runId now true).2.protocols,
        p.id = protocolId → ∃ q ∈ db.protocols, q.id = protocolId ∧
          p.runCount = q.runCount + 1 ∧ p.lastRun = some now) ∧
    ((startProtocolRun db protocolId userId runId now false).1.toOption
        = none ∧
      ∃ r ∈ (startProtocolRun db protocolId userId runId now false).2.runs,
        r.id = runId ∧ r.status = RunStatus.inProgress) := by
  have hb : db.protocols.any (fun p => p.id == protocolId) = true := by
    rw [List.any_eq_true]
    obtain ⟨p, hpmem, hpid⟩ := hp
    exact ⟨p, hpmem, by simp [hpid]⟩
  refine ⟨?_, ?_, ?_⟩
  · intro p hpmem hpid
    simp only [startProtocolRun, hb, if_true] at hpmem
    simp only [List.mem_map] at hpmem
    obtain ⟨q, hq, rfl⟩ := hpmem
    by_cases h : q.id = protocolId
    · exact ⟨q, hq, h, by simp [h], by simp [h]⟩
    · simp [h] at hpid
  · simp only [startProtocolRun, hb, if_true]
    rfl
  · simp only [startProtocolRun, hb, if_true]
    refine ⟨{ id := runId,
              protocolId := protocolId,
              userId := userId,
              startedAt := now,
              completedAt := none,
              status := .inProgress,
              currentStep := 0,
              notes := none }, by simp, by simp, by simp⟩

/-- C7 witness: applying the theorem at the concrete database `dbRed`. -/
theorem C7_witness :
    (∃ p ∈ dbRed.protocols, p.id = "p1") ∧
    ((∀ p ∈ (startProtocolRun dbRed "p1" "kelly" "r1" 3 true).2.protocols,
        p.id = "p1" → ∃ q ∈ dbRed.protocols, q.id = "p1" ∧
          p.runCount = q.runCount + 1 ∧ p.lastRun = some 3) ∧
      ((startProtocolRun dbRed "p1" "kelly" "r1" 3 false).1.toOption = none ∧
        ∃ r ∈ (startProtocolRun dbRed "p1" "kelly" "r1" 3 false).2.runs,
          r.id = "r1" ∧ r.status = RunStatus.inProgress)) :=
  ⟨⟨pRed, by decide, by decide⟩,
    C7_bookkeeping_not_best_effort dbRed "p1" "kelly" "r1" 3
      ⟨pRed, by decide, by decide⟩⟩

/-! ### Claim C8 — `total_duration` is the sum of the step durations -/

/-- C8: after any upsert, every stored row for the given owner and name
carries exactly the given steps with `total_duration` their sum; and on
the spec's "red light" example the sum is 14 minutes. -/
theorem C8_totalDuration_is_sum (db : Db) (inp : ProtocolInput)
    (newId : String) (now : Nat) :
    (∀ p ∈ (createProtocol db inp newId now).2.protocols,
        p.userId = inp.userId → p.name = inp.name →
          p.totalDuration = totalDurationOf inp.steps ∧
            p.steps = inp.steps) ∧
    totalDurationOf redSteps = 14 := by
  refine ⟨?_, by decide⟩
  intro p hp hu hn
  cases hc : db.protocols.any (exactNameMatch inp.userId inp.name) with
  | true =>
    simp only [createProtocol, hc, if_true, List.mem_map] at hp
    obtain ⟨q, hq, rfl⟩ := hp
    by_cases h : exactNameMatch inp.userId inp.name q = true
    · simp [h]
    · rw [Bool.not_eq_true] at h
      simp [h] at hu hn
      simp [exactNameMatch, hu, hn] at h
  | false =>
    simp only [createProtocol, hc, Bool.false_eq_true, if_false] at hp
    rw [List.mem_append] at hp
    cases hp with
    | inl hmem =>
      rw [List.any_eq_false] at hc
      exact absurd (by simp [exactNameMatch, hu, hn]) (hc p hmem)
    | inr hmem =>
      simp only [List.mem_singleton] at hmem
      subst hmem
      simp

/-- C8 witness: the row created for the "red light" protocol stores total
duration 14 and the four steps. -/
theorem C8_witness :
    pRed.totalDuration
        = totalDurationOf redSteps ∧
      pRed.steps = redSteps :=
  (C8_totalDuration_is_sum dbEmpty
      ⟨"kelly", "red light", none, redSteps, [], none⟩ "p1" 0).1
    pRed (by decide) (by decide) (by decide)

/-! ### Lemmas about `pickLatest` (the `ORDER BY started_at DESC LIMIT 1`
row) -/

/-- The comparator keeps one of its two arguments. -/
theorem laterRun_eq_or (a b : RunRow × ProtocolRow) :
    laterRun a b = a ∨ laterRun a b = b := by
  unfold laterRun
  split
  · exact Or.inr rfl
  · exact Or.inl rfl

/-- The comparator result starts no earlier than the left argument. -/
theorem le_laterRun_left (a b : RunRow × ProtocolRow) :
    a.1.startedAt ≤ (laterRun a b).1.startedAt := by
  unfold laterRun
  split
  · omega
  · exact le_refl _

/-- The comparator result starts no earlier than the right argument. -/
theorem le_laterRun_right (a b : RunRow × ProtocolRow) :
    b.1.startedAt ≤ (laterRun a b).1.startedAt := by
  unfold laterRun
  split
  · exact le_refl _
  · omega

/-- Folding the comparator yields one of the inputs. -/
theorem foldl_laterRun_mem (xs : List (RunRow × ProtocolRow))
    (x : RunRow × ProtocolRow) : xs.foldl laterRun x ∈ x :: xs := by
  induction xs generalizing x with
  | nil => simp
  | cons y ys ih =>
    simp only [List.foldl_cons]
    have hmem := ih (laterRun x y)
    rcases List.mem_cons.mp hmem with h | h
    · rw [h]
      rcases laterRun_eq_or x y with h2 | h2 <;> rw [h2]
      · exact List.mem_cons_self _ _
      · exact List.mem_cons_of_mem _ (List.mem_cons_self _ _)
    · exact List.mem_cons_of_mem _ (List.mem_cons_of_mem _ h)

/-- Folding the comparator dominates its initial value's start time. -/
theorem foldl_laterRun_init_le (xs : List (RunRow × ProtocolRow))
    (x : RunRow × ProtocolRow) :
    x.1.startedAt ≤ (xs.foldl laterRun x).1.startedAt := by
  induction xs generalizing x with
  | nil => simp
  | cons z zs ih =>
    simp only [List.foldl_cons]
    calc x.1.startedAt ≤ (laterRun x z).1.startedAt := le_laterRun_left x z
      _ ≤ _ := ih (laterRun x z)

/-- Folding the comparator dominates every input's start time. -/
theorem foldl_laterRun_ge (xs : List (RunRow × ProtocolRow))
    (x y : RunRow × ProtocolRow) (h : y ∈ x :: xs) :
    y.1.startedAt ≤ (xs.foldl laterRun x).1.startedAt := by
  induction xs generalizing x with
  | nil =>
    rw [List.mem_singleton] at h
    rw [h]
    simp
  | cons z zs ih =>
    simp only [List.foldl_cons]
    rcases List.mem_cons.mp h with h1 | h1
    · rw [h1]
      calc x.1.startedAt ≤ (laterRun x z).1.startedAt := le_laterRun_left x z
        _ ≤ _ := foldl_laterRun_init_le zs (laterRun x z)
    · rcases List.mem_cons.mp h1 with h2 | h2
      · rw [h2]
        calc z.1.startedAt ≤ (laterRun x z).1.startedAt :=
              le_laterRun_right x z
          _ ≤ _ := foldl_laterRun_init_le zs (laterRun x z)
      · exact ih (laterRun x z) (List.mem_cons_of_mem _ h2)

/-- The selected row is one of the candidates. -/
theorem pickLatest_mem (cs : List (RunRow × ProtocolRow))
    (c : RunRow × ProtocolRow) (h : pickLatest cs = some c) : c ∈ cs := by
  cases cs with
  | nil => simp [pickLatest] at h
  | cons x xs =>
    simp only [pickLatest, Option.some_inj] at h
    rw [← h]
    exact foldl_laterRun_mem xs x

/-- The selected row starts no earlier than any candidate. -/
theorem pickLatest_ge (cs : List (RunRow × ProtocolRow))
    (c : RunRow × ProtocolRow) (h : pickLatest cs = some c) :
    ∀ d ∈ cs, d.1.startedAt ≤ c.1.startedAt := by
  cases cs with
  | nil => simp [pickLatest] at h
  | cons x xs =>
    intro d hd
    simp only [pickLatest, Option.some_inj] at h
    rw [← h]
    exact foldl_laterRun_ge xs x d hd

/-- Membership in the joined candidate rows of `getActiveRun`. -/
theorem mem_activeCandidates (db : Db) (u : String)
    (c : RunRow × ProtocolRow) :
    c ∈ activeCandidates db u ↔
      c.1 ∈ db.runs ∧ c.1.userId = u ∧ c.1.status = RunStatus.inProgress ∧
        db.protocols.find? (fun p => p.id == c.1.protocolId) = some c.2 := by
  unfold activeCandidates
  rw [List.mem_filterMap]
  constructor
  · rintro ⟨r, hr, hmap⟩
    rw [List.mem_filter] at hr
    rcases Option.map_eq_some'.mp hmap with ⟨p, hfind, hcp⟩
    rw [← hcp]
    have hpred := hr.2
    simp only [Bool.and_eq_true, beq_iff_eq] at hpred
    exact ⟨hr.1, hpred.1, hpred.2, hfind⟩
  · rintro ⟨h1, h2, h3, h4⟩
    refine ⟨c.1, List.mem_filter.mpr ⟨h1, by simp [h2, h3]⟩, ?_⟩
    rw [h4]
    simp

/-! ### Claim C2 — runs observe the current definition, not a snapshot -/

/-- C2 counterexample: the claim says steps seen through an in-flight run
are the snapshot taken at run start.  With run `r1` active on the four-step
"red light" protocol, upserting the definition down to the single step
`neck/9` changes the steps `getActiveRun` reports for the same run. -/
theorem C2_counterexample :
    (getActiveRun db0 "kelly").map ActiveRunView.steps = some redSteps ∧
    (getActiveRun (createProtocol db0
          ⟨"kelly", "red light", none, [⟨"neck", 9, none, none⟩], [], none⟩
          "pX" 5).2 "kelly").map ActiveRunView.steps = some [⟨"neck", 9, none, none⟩] := by
  decide

/-- C2 amended: runs store no snapshot of the steps.  `getActiveRun` joins
the current `protocols` row, so the steps and name it reports are always
those currently stored on the referenced definition — a later upsert of
the definition changes what the in-flight run observes. -/
theorem C2_no_snapshot (db : Db) (u : String) (v : ActiveRunView)
    (h : getActiveRun db u = some v) :
    ∃ p ∈ db.protocols, p.id = v.protocolId ∧ v.steps = p.steps ∧
      v.protocolName = p.name := by
  unfold getActiveRun at h
  rcases Option.map_eq_some'.mp h with ⟨c, hc, hv⟩
  have hmem := pickLatest_mem _ _ hc
  have hcc := (mem_activeCandidates db u c).mp hmem
  have hfind := hcc.2.2.2
  have hpmem := List.mem_of_find?_eq_some hfind
  have hpid := List.find?_some hfind
  simp only [beq_iff_eq] at hpid
  rw [← hv]
  exact ⟨c.2, hpmem, hpid, rfl, rfl⟩

/-- C2 witness: applying the theorem to the active run of `db0`. -/
theorem C2_witness :
    ∃ p ∈ db0.protocols, p.id = (viewOf (run1, pRed)).protocolId ∧
      (viewOf (run1, pRed)).steps = p.steps ∧
        (viewOf (run1, pRed)).protocolName = p.name :=
  C2_no_snapshot db0 "kelly" (viewOf (run1, pRed)) (by decide)

/-! ### Claim C9 — `getActiveRun` under several active runs -/

/-- C9: when several `in_progress` runs exist for an owner, `getActiveRun`
does not fail: if `r` is an in-progress run of the owner whose referenced
definition exists and every other in-progress run of the owner started
strictly earlier, the call returns exactly `r` (joined with its current
definition), silently ignoring the older runs. -/
theorem C9_getActiveRun_latest (db : Db) (u : String) (r : RunRow)
    (p : ProtocolRow) (hr : r ∈ db.runs) (hu : r.userId = u)
    (hs : r.status = RunStatus.inProgress)
    (hp : db.protocols.find? (fun q => q.id == r.protocolId) = some p)
    (hmax : ∀ r2 ∈ db.runs, r2 ≠ r → r2.userId = u →
        r2.status = RunStatus.inProgress → r2.startedAt < r.startedAt) :
    getActiveRun db u = some (viewOf (r, p)) := by
  have hcand : (r, p) ∈ activeCandidates db u :=
    (mem_activeCandidates db u (r, p)).mpr ⟨hr, hu, hs, hp⟩
  obtain ⟨z, hz⟩ : ∃ z, pickLatest (activeCandidates db u) = some z := by
    cases hl : activeCandidates db u with
    | nil =>
      rw [hl] at hcand
      simp at hcand
    | cons a as => exact ⟨as.foldl laterRun a, rfl⟩
  have hzmem := pickLatest_mem _ _ hz
  have hzc := (mem_activeCandidates db u z).mp hzmem
  have hge := pickLatest_ge _ _ hz (r, p) hcand
  have hz1 : z.1 = r := by
    by_contra hne
    have hlt := hmax z.1 hzc.1 hne hzc.2.1 hzc.2.2.1
    simp only at hge
    omega
  have hz2 : z.2 = p := by
    have hfz := hzc.2.2.2
    rw [hz1, hp] at hfz
    exact (Option.some_inj.mp hfz).symm
  have hzrp : z = (r, p) := by
    obtain ⟨z1, z2⟩ := z
    simp only at hz1 hz2
    rw [hz1, hz2]
  rw [getActiveRun, hz, hzrp]
  rfl

/-- C9 witness: with two simultaneous active runs, `getActiveRun` returns
the later one, `r2`. -/
theorem C9_witness : getActiveRun dbTwo "kelly" = some (viewOf (run2, pRed)) :=
  C9_getActiveRun_latest dbTwo "kelly" run2 pRed (by decide) (by decide)
    (by decide) (by decide) (by decide)

/-! ### Claim C10 — the upsert's frame and soft-delete visibility -/

/-- C10: when the upsert hits an existing exact `(userId, name)` row, that
row keeps its `id`, `run_count`, `last_run`, `is_active` and `created_at`
while `description`, `steps`, `total_duration`, `tags` and `updated_at`
are replaced; and if every row of this owner whose name matches
case-insensitively was inactive, the protocol remains invisible to both
`getProtocol` and `listProtocols` after the upsert. -/
theorem C10_upsert_frame (db : Db) (inp : ProtocolInput) (newId : String)
    (now : Nat)
    (hEx : ∃ p ∈ db.protocols, p.userId = inp.userId ∧ p.name = inp.name) :
    (∀ p ∈ db.protocols, p.userId = inp.userId → p.name = inp.name →
        ∃ p2 ∈ (createProtocol db inp newId now).2.protocols,
          p2.id = p.id ∧ p2.runCount = p.runCount ∧ p2.lastRun = p.lastRun ∧
            p2.isActive = p.isActive ∧ p2.createdAt = p.createdAt ∧
            p2.description = inp.description ∧ p2.steps = inp.steps ∧
            p2.tags = inp.tags ∧ p2.updatedAt = now) ∧
    ((∀ q ∈ db.protocols, q.userId = inp.userId →
        q.name.toLower = inp.name.toLower → q.isActive = false) →
      getProtocol (createProtocol db inp newId now).2 inp.userId inp.name
          = none ∧
        ∀ q ∈ listProtocols (createProtocol db inp newId now).2 inp.userId,
          q.name.toLower ≠ inp.name.toLower) := by
  have hb : db.protocols.any (exactNameMatch inp.userId inp.name) = true := by
    rw [List.any_eq_true]
    obtain ⟨p, hp, h1, h2⟩ := hEx
    exact ⟨p, hp, by simp [exactNameMatch, h1, h2]⟩
  constructor
  · intro p hp hu hn
    refine ⟨{ p with
              description := inp.description,
              steps := inp.steps,
              totalDuration := totalDurationOf inp.steps,
              tags := inp.tags,
              updatedAt := now }, ?_, by simp, by simp, by simp, by simp,
            by simp, by simp, by simp, by simp, by simp⟩
    simp only [createProtocol, hb, if_true, List.mem_map]
    exact ⟨p, hp, by simp [exactNameMatch, hu, hn]⟩
  · intro hInactive
    constructor
    · rw [getProtocol, List.find?_eq_none]
      intro x hx
      simp only [createProtocol, hb, if_true, List.mem_map] at hx
      obtain ⟨q0, hq0, rfl⟩ := hx
      by_cases he : exactNameMatch inp.userId inp.name q0 = true
      · intro hlm
        simp only [he, if_true, lowerNameMatch, Bool.and_eq_true,
          beq_iff_eq] at hlm
        have hq := hInactive q0 hq0 hlm.1.1 hlm.1.2
        simp [hq] at hlm
      · rw [Bool.not_eq_true] at he
        intro hlm
        simp only [he, Bool.false_eq_true, if_false, lowerNameMatch,
          Bool.and_eq_true, beq_iff_eq] at hlm
        have hq := hInactive q0 hq0 hlm.1.1 hlm.1.2
        simp [hq] at hlm
    · intro q hq hlow
      simp only [listProtocols, List.mem_mergeSort, List.mem_filter] at hq
      obtain ⟨hqmem, hqp⟩ := hq
      simp only [createProtocol, hb, if_true, List.mem_map] at hqmem
      obtain ⟨q0, hq0, rfl⟩ := hqmem
      by_cases he : exactNameMatch inp.userId inp.name q0 = true
      · simp only [he, if_true, Bool.and_eq_true, beq_iff_eq] at hqp hlow
        have hq := hInactive q0 hq0 hqp.1 hlow
        simp [hq] at hqp
      · rw [Bool.not_eq_true] at he
        simp only [he, Bool.false_eq_true, if_false, Bool.and_eq_true,
          beq_iff_eq] at hqp hlow
        have hq := hInactive q0 hq0 hqp.1 hlow
        simp [hq] at hqp

/-- C10 witness: re-creating the soft-deleted "red light" protocol leaves
it invisible to `getProtocol`. -/
theorem C10_witness :
    getProtocol (createProtocol dbInactive
        ⟨"kelly", "red light", none, [⟨"neck", 9, none, none⟩], [], none⟩
        "pN" 7).2 "kelly" "red light" = none :=
  ((C10_upsert_frame dbInactive
      ⟨"kelly", "red light", none, [⟨"neck", 9, none, none⟩], [], none⟩ "pN" 7
      ⟨pRedInactive, by decide, by decide, by decide⟩).2
    (by
      intro q hq h1 h2
      simp only [dbInactive, List.mem_singleton] at hq
      subst hq
      rfl)).1

end IrisAssist
